import Mathlib

/-!
# Verification of the ftfmcp tool-calling conversation orchestration engine

Shallow embedding of the orchestration core of the repository (Gemini
function-calling agent for BigQuery analytics):

* `backend/src/agent.js` — `AgenticOrchestrator`: `executeToolCall`, the
  tool-call loop inside `chat`, the template-validation retry loop, and
  `prepareMoodboardContext` / `loadRaInput`;
* `backend/src/responseSchema.js` — `validateResponseAgainstTemplate`;
* `backend/src/conversationStore.js` — `ConversationStore` (`_load`,
  `appendMessage`, `setModelHistory`, `_normalizeMessage`);
* the server-side `runConversationTurn` (backend `index.js`).

External collaborators (the BigQuery client, the Gemini model endpoint, the
filesystem, `JSON.parse`) are abstracted as parameters: the model endpoint
becomes a finite script of responses consumed in order, and each BigQuery tool
becomes an arbitrary function returning success or a thrown error message.
JavaScript exceptions are embedded as `Except`/`Option` results; JS `null`
fields become `Option`.

The `RateLimitGuard` and `StreamingResponseAggregator` components are declared
by the specification but their defining module is not part of the source
snapshot; they are modelled from the specification text where needed, and
those definitions are marked `Modelled from the spec:`.
-/

namespace Ftf

/-- Opaque JSON-like payload values (tool arguments, tool results, persisted
history entries).  The orchestration engine never inspects these beyond
passing them around, so an opaque carrier with decidable equality suffices. -/
inductive Val where
  | str : String → Val
  | num : Int → Val
  | vnull : Val
deriving DecidableEq, Repr

/-- The body of a Gemini `functionResponse` part: the orchestrator sends either
`response: { result }` on tool success or `response: { error }` on failure. -/
inductive FnResp where
  | result : Val → FnResp
  | error : String → FnResp
deriving DecidableEq, Repr

/-- A response/content part (the tagged union Text | FunctionCall |
FunctionResponse of the Gemini content API). -/
inductive Part where
  | text : String → Part
  | functionCall : String → Val → Part
  | functionResponse : String → FnResp → Part
deriving DecidableEq, Repr

/-- Message roles appearing in `conversationHistory`. -/
inductive Role where
  | user : Role
  | model : Role
  | function : Role
deriving DecidableEq, Repr

/-- One entry of `AgenticOrchestrator.conversationHistory`. -/
structure HistMessage where
  role : Role
  parts : List Part
deriving DecidableEq, Repr

/-- Embedding of `ToolCallRecord`: the per-call observability record built in the loop of
`AgenticOrchestrator.chat` (`{name, args, result: null, error: null}` then one
of `result`/`error` filled in). -/
structure ToolCallRecord where
  name : String
  args : Val
  result : Option Val
  error : Option String
deriving DecidableEq, Repr

/-- The injected external BigQuery capabilities (`bigquery.js`).  Each returns
`.ok` for a resolved promise and `.error msg` for a rejected one.  The
`run_query` entry includes the zero-row `retryGuidance` decoration of
`AgenticOrchestrator.executeToolCall`, which only transforms the external
result and is therefore absorbed into the opaque collaborator. -/
structure BigQueryEnv where
  list_datasets : Val → Except String Val
  list_tables : Val → Except String Val
  get_table_schema : Val → Except String Val
  run_query : Val → Except String Val
  forecast : Val → Except String Val

/-- Embedding of `AgenticOrchestrator.executeToolCall`: dispatch on the tool name; the
`default` branch throws `Unknown tool: ${toolName}`. -/
def executeToolCall (env : BigQueryEnv) (toolName : String) (args : Val) :
    Except String Val :=
  if toolName == "list_datasets" then env.list_datasets args
  else if toolName == "list_tables" then env.list_tables args
  else if toolName == "get_table_schema" then env.get_table_schema args
  else if toolName == "run_query" then env.run_query args
  else if toolName == "forecast" then env.forecast args
  else Except.error ("Unknown tool: " ++ toolName)

/-- The registered tool names (the `tools` declaration array in agent.js). -/
def registeredToolNames : List String :=
  ["list_datasets", "list_tables", "get_table_schema", "run_query", "forecast"]

/-- One iteration body of the `for (const functionCall of functionCalls)` loop:
build the ToolCallRecord and the functionResponse part for a single call.
The `try`/`catch` around `executeToolCall` maps success into `result` and any
thrown error message into `error`. -/
def execCall (env : BigQueryEnv) (name : String) (args : Val) :
    ToolCallRecord × Part :=
  match executeToolCall env name args with
  | Except.ok v =>
      (⟨name, args, some v, none⟩, Part.functionResponse name (FnResp.result v))
  | Except.error e =>
      (⟨name, args, none, some e⟩, Part.functionResponse name (FnResp.error e))

/-- The function-call parts of a response, in order (the
`.filter(part => part.functionCall).map(part => part.functionCall)` step). -/
def fcParts : List Part → List (String × Val)
  | [] => []
  | Part.functionCall n a :: rest => (n, a) :: fcParts rest
  | _ :: rest => fcParts rest

/-- Embedding of `parts.some(part => part.functionCall)`: the inner `while` condition. -/
def hasFC (parts : List Part) : Bool :=
  parts.any fun p => match p with
    | Part.functionCall _ _ => true
    | _ => false

/-- Process every function call of one response: the records pushed to
`iterationToolCalls` and the parts pushed to `functionResponses`, in order. -/
def processCalls (env : BigQueryEnv) : List (String × Val) →
    List ToolCallRecord × List Part
  | [] => ([], [])
  | (n, a) :: rest =>
      let r := execCall env n a
      let rs := processCalls env rest
      (r.1 :: rs.1, r.2 :: rs.2)

/-- Embedding of `response.response.text()`: concatenation of the text fields of the text
parts of the first candidate. -/
def responseText (parts : List Part) : String :=
  String.join (parts.filterMap fun p => match p with
    | Part.text s => some s
    | _ => none)

/-- A model response, i.e. `response.response.candidates[0].content.parts` of
one `chat.sendMessage` resolution.  The model endpoint is embedded as a finite
script of such responses consumed in order; an invocation past the end of the
script is a model-protocol failure and makes the turn abort (`none`). -/
abbrev ModelScript := List (List Part)

/-- Result of the inner tool-call `while` loop, starting from a response
already at hand: the final text, the records collected this attempt, the
history messages appended, and the script remaining for later invocations. -/
structure LoopOut where
  finalText : String
  records : List ToolCallRecord
  delta : List HistMessage
  remaining : ModelScript
deriving Repr

/-- The inner `while (parts.some(part => part.functionCall))` loop of
`AgenticOrchestrator.chat`: execute every function call of the response, push
the Model message (raw parts) and the synthesized Function message, then send
the function responses back to the model.  On exit, extract the final text and
append it as a Model message with a single text part. -/
def toolLoop (env : BigQueryEnv) : List Part → ModelScript → Option LoopOut
  | resp, script =>
    if hasFC resp then
      match script with
      | [] => none
      | next :: rest =>
          let pc := processCalls env (fcParts resp)
          match toolLoop env next rest with
          | none => none
          | some out =>
              some ⟨out.finalText, pc.1 ++ out.records,
                    HistMessage.mk Role.model resp ::
                      HistMessage.mk Role.function pc.2 :: out.delta,
                    out.remaining⟩
    else
      some ⟨responseText resp, [],
            [HistMessage.mk Role.model [Part.text (responseText resp)]], script⟩

/-- A `ResponseSchema` entry (`responseSchemas.json` via `getResponseSchema`):
only the fields the orchestration core reads. -/
structure Schema where
  query_type : String
  required_sections : List String
deriving DecidableEq, Repr

/-- Result of `validateResponseAgainstTemplate`. -/
structure ValidationResult where
  valid : Bool
  missingSections : List String
deriving DecidableEq, Repr

/-- Character-list prefix test (helper for the JS
`String.prototype.includes`). -/
def startsWithChars (l needle : List Char) : Bool :=
  match needle with
  | [] => true
  | n :: ns =>
      match l with
      | [] => false
      | h :: t => h == n && startsWithChars t ns

/-- Character-list substring containment. -/
def containsChars : List Char → List Char → Bool
  | [], needle => needle.isEmpty
  | h :: t, needle => startsWithChars (h :: t) needle || containsChars t needle

/-- JS `hay.includes(needle)`. -/
def strContains (hay needle : String) : Bool :=
  containsChars hay.toList needle.toList

/-- Embedding of `validateResponseAgainstTemplate` (responseSchema.js): every required
section must occur literally as a substring of the response text. -/
def validateResponseAgainstTemplate (responseText : String)
    (schemaConfig : Option Schema) : ValidationResult :=
  match schemaConfig with
  | none => ⟨true, []⟩
  | some schema =>
      let missingSections :=
        schema.required_sections.filter fun sec =>
          !(strContains responseText sec)
      ⟨missingSections.isEmpty, missingSections⟩

/-- Constant `MAX_FORMAT_RETRIES` (agent.js). -/
def MAX_FORMAT_RETRIES : Nat := 1

/-- The corrective instruction synthesized when validation fails and retry
budget remains (agent.js, `correctionPrompt`). -/
def correctionPrompt (schema : Schema) (missing : List String) : String :=
  String.intercalate "\n"
    ["Your previous response did not follow the required Markdown template for \"" ++
       schema.query_type ++ "\".",
     "Missing sections: " ++ String.intercalate ", " missing,
     "Please resend the answer using the exact headings, tables, and bullet styles from the [RESPONSE_FORMAT] hint. Keep the template structure intact."]

/-- The literal suffix appended when the retry budget is exhausted. -/
def warningSuffix (missing : List String) : String :=
  "\n\nWARNING: Response did not match required template sections. Missing: " ++
    String.intercalate "; " missing

/-- One attempt of the outer `while (attempt <= MAX_FORMAT_RETRIES)` loop:
send the pending message (consume one scripted response) and run the inner
tool-call loop. -/
def attemptRun (env : BigQueryEnv) : ModelScript → Option LoopOut
  | [] => none
  | resp :: rest => toolLoop env resp rest

/-- Result of `AgenticOrchestrator.chat` restricted to the orchestration core:
final text, aggregated tool calls, format validation, and the history messages
appended to `conversationHistory` during the turn. -/
structure ChatResult where
  text : String
  toolCalls : List ToolCallRecord
  validation : ValidationResult
  historyDelta : List HistMessage
deriving Repr

/-- The outer format-retry loop of `AgenticOrchestrator.chat`, with
`remaining = MAX_FORMAT_RETRIES - attempt` retries still allowed.  Mirrors:
run one attempt; with no schema accept; validate; on success accept; at the
retry budget append the WARNING suffix and accept invalid; otherwise push the
corrective User message and re-run. -/
def formatLoop (env : BigQueryEnv) (schemaConfig : Option Schema) :
    Nat → ModelScript → Option ChatResult
  | remaining, script =>
    match attemptRun env script with
    | none => none
    | some out =>
        let base := out.delta
        match schemaConfig with
        | none => some ⟨out.finalText, out.records, ⟨true, []⟩, base⟩
        | some schema =>
            let v := validateResponseAgainstTemplate out.finalText (some schema)
            if v.valid then
              some ⟨out.finalText, out.records, v, base⟩
            else
              match remaining with
              | 0 =>
                  some ⟨out.finalText ++ warningSuffix v.missingSections,
                        out.records, v, base⟩
              | r + 1 =>
                  match formatLoop env schemaConfig r out.remaining with
                  | none => none
                  | some res =>
                      some ⟨res.text, out.records ++ res.toolCalls,
                            res.validation,
                            base ++
                              (HistMessage.mk Role.user
                                  [Part.text (correctionPrompt schema v.missingSections)] ::
                                res.historyDelta)⟩

/-- Embedding of `AgenticOrchestrator.chat` (orchestration core): push the combined user
message, then run the format-retry loop around the tool-call loop.
`combinedMessage` is the user message already augmented with routing /
format / moodboard hint blocks (pure string assembly). -/
def chat (env : BigQueryEnv) (schemaConfig : Option Schema)
    (combinedMessage : String) (script : ModelScript) : Option ChatResult :=
  match formatLoop env schemaConfig MAX_FORMAT_RETRIES script with
  | none => none
  | some res =>
      some ⟨res.text, res.toolCalls, res.validation,
            HistMessage.mk Role.user [Part.text combinedMessage] ::
              res.historyDelta⟩

/-- The FunctionCall names of a history message, in part order. -/
def fcNamesOf (m : HistMessage) : List String :=
  (fcParts m.parts).map Prod.fst

/-- Test for a Model-role message containing at least one FunctionCall part. -/
def isModelFC (m : HistMessage) : Bool :=
  m.role == Role.model && !(fcParts m.parts).isEmpty

/-- Test for a Function-role message. -/
def isFunctionRole (m : HistMessage) : Bool :=
  m.role == Role.function

/-- The FunctionResponse names of a part list, in order, provided every part
is a FunctionResponse; `none` otherwise. -/
def frNames : List Part → Option (List String)
  | [] => some []
  | Part.functionResponse n _ :: rest => (frNames rest).map (fun l => n :: l)
  | _ :: _ => none

/-- Structural well-formedness of a run of appended history messages: each
message is either an ordinary message (neither a Function message nor a Model
message with function calls), or a Model message with at least one
FunctionCall part immediately followed by exactly one Function message whose
FunctionResponse parts are name-aligned, in order, with those calls. -/
inductive Aligned : List HistMessage → Prop where
  | nil : Aligned []
  | plain (m : HistMessage) (rest : List HistMessage) :
      isModelFC m = false → isFunctionRole m = false →
      Aligned rest → Aligned (m :: rest)
  | pair (m fm : HistMessage) (rest : List HistMessage) :
      isModelFC m = true → fm.role = Role.function →
      frNames fm.parts = some (fcNamesOf m) →
      Aligned rest → Aligned (m :: fm :: rest)

/-! ## RateLimitGuard (modelled from the spec) -/

/-- Modelled from the spec: the `RateLimitGuard` delay floor (spec §4.3,
default 60,000 ms).  The guard's defining module (the streaming `Agent`
class imported by the server's `runConversationTurn`) is not part of the
source snapshot under src/; only its spec and its callers are. -/
def RATE_LIMIT_DELAY_FLOOR_MS : Nat := 60000

/-- Modelled from the spec: the delay finally waited by the `RateLimitGuard`
before retrying a rate-limited model invocation.  Upstream extraction
(structured `retryDelay` detail, free-text "retry in N s" pattern) yields an
optional provider-suggested delay in milliseconds; the computed delay is the
suggestion clamped to be at least the configured floor, and the floor itself
when no suggestion could be extracted (spec §4.3). -/
def computeRateLimitDelayMs (suggestedDelayMs : Option Nat) : Nat :=
  max RATE_LIMIT_DELAY_FLOOR_MS (suggestedDelayMs.getD RATE_LIMIT_DELAY_FLOOR_MS)

/-! ## StreamingResponseAggregator (modelled from the spec) -/

/-- Modelled from the spec: a partial part carried by one stream chunk, and
equally an accumulator entry of the aggregator (spec §4.2 and §3
`StreamChunk`).  A chunk part is either a text fragment or a partial function
call whose args map may arrive split across chunks.  The aggregator module is
not part of the source snapshot under src/. -/
inductive AggPart where
  | text : String → AggPart
  | functionCall : String → List (String × Val) → AggPart
deriving DecidableEq, Repr

/-- Test for the text variant of an accumulator entry. -/
def isTextAgg : AggPart → Bool
  | AggPart.text _ => true
  | _ => false

/-- Modelled from the spec: append an arriving text fragment to the single
existing Text accumulator entry if one exists, else create one (spec §4.2). -/
def appendTextFragment : List AggPart → String → List AggPart
  | [], s => [AggPart.text s]
  | AggPart.text c :: rest, s => AggPart.text (c ++ s) :: rest
  | p :: rest, s => p :: appendTextFragment rest s

/-- Modelled from the spec: shallow-merge (union) of an accumulated args map
with incoming partial args; key collisions overwrite with the most recent
value (spec §4.2). -/
def mergeArgs (old incoming : List (String × Val)) : List (String × Val) :=
  old.filter (fun kv => !(incoming.any (fun kv2 => kv2.1 == kv.1))) ++ incoming

/-- Modelled from the spec: fold one partial part into the accumulator: text
fragments concatenate into the single Text entry; a partial function call
merges args into the existing entry of the same name, else appends a new
entry (spec §4.2). -/
def addPartial (acc : List AggPart) : AggPart → List AggPart
  | AggPart.text s => appendTextFragment acc s
  | AggPart.functionCall n a =>
      if acc.any (fun p => match p with
          | AggPart.functionCall m _ => m == n
          | _ => false) then
        acc.map (fun p => match p with
          | AggPart.functionCall m b =>
              if m == n then AggPart.functionCall m (mergeArgs b a)
              else AggPart.functionCall m b
          | other => other)
      else acc ++ [AggPart.functionCall n a]

/-- Modelled from the spec: `aggregate(chunks)`: fold every partial part of
every chunk, in arrival order, into an empty accumulator (spec §4.2). -/
def aggregateChunks (chunks : List (List AggPart)) : List AggPart :=
  chunks.foldl (fun acc chunk => chunk.foldl addPartial acc) []

/-- Text of the aggregated message: concatenation of its Text entries (the
aggregator maintains at most one). -/
def aggText : List AggPart → String
  | [] => ""
  | AggPart.text s :: rest => s ++ aggText rest
  | _ :: rest => aggText rest

/-- The text fragment carried by one partial part (empty for function calls). -/
def fragText : AggPart → String
  | AggPart.text s => s
  | _ => ""

/-- In-order concatenation of the text fragments of one chunk. -/
def chunkText : List AggPart → String
  | [] => ""
  | p :: rest => fragText p ++ chunkText rest

/-- In-order concatenation of the text fragments across all chunks. -/
def chunksText : List (List AggPart) → String
  | [] => ""
  | c :: rest => chunkText c ++ chunksText rest

/-- Number of Text entries in the accumulator. -/
def textEntryCount : List AggPart → Nat
  | [] => 0
  | p :: rest => (if isTextAgg p then 1 else 0) + textEntryCount rest

/-! ## Moodboard trigger context (`prepareMoodboardContext`, agent.js) -/

/-- Constant `MOODBOARD_TRIGGER_KEYWORD` (agent.js). -/
def MOODBOARD_TRIGGER_KEYWORD : String := "MOODBOARD_RA"

/-- JS `s.toUpperCase()` restricted to ASCII case mapping (the trigger keyword
is pure ASCII, so containment of the keyword is unaffected).  Character-wise
map over the string's character data. -/
def toUpperString (s : String) : String := String.mk (s.data.map Char.toUpper)

/-- The `hasTriggerKeyword` test of `prepareMoodboardContext`:
`userMessage.toUpperCase().includes(MOODBOARD_TRIGGER_KEYWORD)`. -/
def containsTrigger (s : String) : Bool :=
  strContains (toUpperString s) MOODBOARD_TRIGGER_KEYWORD

/-- External collaborators of `prepareMoodboardContext`: `JSON.parse` on the
inline block (`none` when the parse throws or yields a falsy value, making
`raInput` stay null), and `loadRaInput()` (`readFileSync` + `JSON.parse` of
the mock RA input file, `none` when that fails and the catch returns null). -/
structure MoodboardEnv where
  parseInlineJson : String → Option Val
  raFileInput : Option Val

/-- Outcome of `prepareMoodboardContext` when the trigger is present: either
the error context `{routingSuggestion: null, error}` (no payload could be
loaded) or the full moodboard context.  The context's other fields (brandDNA,
payload, combinations, contextBlock, routingSuggestion) are pure functions of
the chosen `raInput` and module configuration, so the context is represented
by the `raInput` actually used. -/
inductive MoodboardPreparation where
  | errorContext (message : String)
  | context (raInput : Val)
deriving DecidableEq, Repr

/-- The inline JSON block of the message: the lines following the first line
containing the trigger keyword (case-insensitively), provided the trigger
line is not the last line. -/
def inlineRaContent (userMessage : String) : Option String :=
  let lines := userMessage.splitOn "\n"
  match lines.findIdx? (fun l =>
      strContains (toUpperString l) MOODBOARD_TRIGGER_KEYWORD) with
  | none => none
  | some i =>
      if i < lines.length - 1 then
        some (String.intercalate "\n" (lines.drop (i + 1)))
      else none

/-- Embedding of `AgenticOrchestrator.prepareMoodboardContext`: return null
when the trigger keyword is absent; otherwise try to parse the inline JSON
payload following the trigger line, fall back to `loadRaInput()` when that
fails, and return the error context when both sources fail. -/
def prepareMoodboardContext (env : MoodboardEnv) (userMessage : String) :
    Option MoodboardPreparation :=
  if !(containsTrigger userMessage) then none
  else
    let inline : Option Val :=
      match inlineRaContent userMessage with
      | none => none
      | some content => env.parseInlineJson content
    match inline with
    | some ra => some (MoodboardPreparation.context ra)
    | none =>
        match env.raFileInput with
        | some ra => some (MoodboardPreparation.context ra)
        | none =>
            some (MoodboardPreparation.errorContext
              "Failed to load RA input. Please ensure mock_ra_input.json exists or provide valid JSON in the message.")

/-! ## ConversationStore (conversationStore.js) and runConversationTurn -/

/-- A persisted conversation message (normalized shape). -/
structure StoreMessage where
  id : String
  role : String
  content : String
  timestamp : String
  attachments : Option (List Val)
  payload : Option Val
deriving DecidableEq, Repr

/-- An incoming message payload before normalization.  JS absent/null fields
become `none`; the `String(content)` coercion branch is restricted to string
contents, which is the only shape the callers produce. -/
structure InMessage where
  id : Option String
  role : Option String
  content : Option String
  timestamp : Option String
  attachments : List Val
  payload : Option Val
deriving Repr

/-- A stored conversation. -/
structure Conversation where
  id : String
  title : String
  createdAt : String
  updatedAt : String
  messages : List StoreMessage
  modelHistory : List Val
deriving DecidableEq, Repr

/-- JS `value || fallback` on an optional string field (empty string is
falsy). -/
def jsOrString (v : Option String) (fallback : String) : String :=
  match v with
  | some s => if s == "" then fallback else s
  | none => fallback

/-- Embedding of `ConversationStore._normalizeMessage`.  `freshId` stands for
`randomUUID()` and `now` for `new Date().toISOString()`; `deepClone` of
JSON-safe data is the identity in this embedding. -/
def normalizeMessage (freshId now : String) (m : InMessage) :
    Option StoreMessage :=
  let role := jsOrString m.role "assistant"
  let base : StoreMessage :=
    ⟨jsOrString m.id freshId, role, m.content.getD "", jsOrString m.timestamp now,
     none, none⟩
  if role == "error" then some base
  else if role != "user" && role != "assistant" then none
  else if role == "assistant" then
    some { base with
           attachments := if m.attachments.isEmpty then none else some m.attachments,
           payload := m.payload }
  else some base

/-- Embedding of `ConversationStore._findConversation`. -/
def findConversation (store : List Conversation) (cid : String) :
    Option Conversation :=
  store.find? (fun c => c.id == cid)

/-- In-place mutation of the first conversation with the given id (the JS
code mutates the object returned by `find`). -/
def replaceFirstById (cid : String) (c' : Conversation) :
    List Conversation → List Conversation
  | [] => []
  | c :: rest =>
      if c.id == cid then c' :: rest else c :: replaceFirstById cid c' rest

/-- Insertion step for `_sortConversations`: conversations ordered by
`updatedAt` descending (the comparator `a.updatedAt < b.updatedAt ? 1 : -1`),
ties keeping earlier elements first. -/
def insertByUpdatedAt (c : Conversation) :
    List Conversation → List Conversation
  | [] => [c]
  | d :: rest =>
      if d.updatedAt < c.updatedAt then c :: d :: rest
      else d :: insertByUpdatedAt c rest

/-- Embedding of `ConversationStore._sortConversations`. -/
def sortConversations (store : List Conversation) : List Conversation :=
  store.foldr insertByUpdatedAt []

/-- Embedding of `ConversationStore.appendMessage`: find the conversation,
normalize the message; an `error`-role entry is returned without being stored;
otherwise push it, touch `updatedAt`, re-sort and save. -/
def appendMessage (freshId now : String) (store : List Conversation)
    (cid : String) (m : InMessage) :
    Except String (StoreMessage × List Conversation) :=
  match findConversation store cid with
  | none => Except.error "Conversation not found"
  | some conv =>
      match normalizeMessage freshId now m with
      | none => Except.error "Invalid message payload"
      | some entry =>
          if entry.role == "error" then Except.ok (entry, store)
          else
            Except.ok (entry,
              sortConversations (replaceFirstById cid
                { conv with messages := conv.messages ++ [entry], updatedAt := now }
                store))

/-- Embedding of `ConversationStore.setModelHistory`. -/
def setModelHistory (now : String) (store : List Conversation) (cid : String)
    (history : List Val) : Except String (List Conversation) :=
  match findConversation store cid with
  | none => Except.error "Conversation not found"
  | some conv =>
      Except.ok (sortConversations (replaceFirstById cid
        { conv with modelHistory := history, updatedAt := now } store))

/-- A conversation entry as parsed from the store file before `_load`
normalization. -/
structure RawConversation where
  id : String
  title : String
  createdAt : String
  updatedAt : String
  messages : Option (List InMessage)
  modelHistory : Option (List Val)

/-- Normalization of one parsed conversation inside `_load`: messages are
normalized then filtered, dropping entries that failed to normalize and
entries whose role is `error`. -/
def loadConversation (freshId now : String) (raw : RawConversation) :
    Conversation :=
  ⟨raw.id, raw.title, raw.createdAt, raw.updatedAt,
   ((raw.messages.getD []).filterMap (normalizeMessage freshId now)).filter
     (fun m => m.role != "error"),
   raw.modelHistory.getD []⟩

/-- Embedding of `ConversationStore._load` on a successfully parsed file with
a `conversations` array: normalize every conversation, then sort. -/
def loadConversations (freshId now : String) (raws : List RawConversation) :
    List Conversation :=
  sortConversations (raws.map (loadConversation freshId now))

/-- Embedding of `ConversationStore.getDefaultConversationId`. -/
def getDefaultConversationId (store : List Conversation) : Option String :=
  store.head?.map (fun c => c.id)

/-- Embedding of `ConversationStore._buildConversation`. -/
def buildConversation (freshId now : String) (title : Option String)
    (count : Nat) : Conversation :=
  ⟨freshId,
   jsOrString (title.map String.trim) ("New Conversation " ++ toString count),
   now, now, [], []⟩

/-- Fallback branch of the server's `ensureConversationId`: the default
conversation id if any, else create a fresh conversation
(`createConversation` - unshift and save). -/
def ensureFallback (freshId now : String) (store : List Conversation) :
    String × List Conversation :=
  match getDefaultConversationId store with
  | some f => (f, store)
  | none =>
      let conv := buildConversation freshId now none (store.length + 1)
      (conv.id, conv :: store)

/-- Embedding of the server's `ensureConversationId`: a truthy provided id
must exist (else throw); a missing/empty id falls back to the default or a
freshly created conversation. -/
def ensureConversationId (freshId now : String) (store : List Conversation)
    (cid : Option String) : Except String (String × List Conversation) :=
  match cid with
  | some c =>
      if c == "" then Except.ok (ensureFallback freshId now store)
      else if (findConversation store c).isSome then Except.ok (c, store)
      else Except.error "Conversation not found"
  | none => Except.ok (ensureFallback freshId now store)

/-- The response object resolved by the (externally defined) streaming
`Agent.chat`: the fields `runConversationTurn` reads to build the assistant
message. -/
structure AgentResponse where
  text : String
  attachments : List Val
  payload : Option Val

/-- The external agent collaborator of `runConversationTurn`: `chat` either
resolves with a response or throws with a message, and
`getConversationHistorySnapshot()` yields the model-history snapshot present
when the `finally` block runs (the same call site serves both paths). -/
structure AgentModel where
  outcome : Except String AgentResponse
  snapshot : List Val

/-- Successful result of `runConversationTurn`. -/
structure TurnSuccess where
  conversationId : String
  response : AgentResponse
  userMessage : StoreMessage
  assistantMessage : StoreMessage

/-- The catch block of `runConversationTurn`: append an `error`-role entry
(whose content falls back to a fixed message when the thrown message is
empty) and rethrow. -/
def turnCatch (freshId now : String) (store : List Conversation)
    (target : String) (e : String) :
    Except String TurnSuccess × List Conversation :=
  let content := if e == "" then "An error occurred processing your request" else e
  match appendMessage freshId now store target
      ⟨none, some "error", some content, none, [], none⟩ with
  | Except.ok (_, store') => (Except.error e, store')
  | Except.error e2 => (Except.error e2, store)

/-- The finally block of `runConversationTurn`: persist the agent's history
snapshot via `setModelHistory` on whatever outcome the try/catch produced. -/
def persistFinally (now : String) (target : String) (snapshot : List Val)
    (pair : Except String TurnSuccess × List Conversation) :
    Except String TurnSuccess × List Conversation :=
  match setModelHistory now pair.2 target snapshot with
  | Except.ok store' => (pair.1, store')
  | Except.error e => (Except.error e, pair.2)

/-- Embedding of the server's `runConversationTurn`: resolve the target
conversation, append the user message, run the agent inside try/catch, and
persist the model-history snapshot in `finally` on both the success and the
failure path.  The returned store reflects every mutation performed before
the turn returned or its error propagated. -/
def runConversationTurn (freshId now : String) (store0 : List Conversation)
    (conversationId : Option String) (messageText : String)
    (agent : AgentModel) : Except String TurnSuccess × List Conversation :=
  match ensureConversationId freshId now store0 conversationId with
  | Except.error e => (Except.error e, store0)
  | Except.ok (target, store1) =>
      match appendMessage freshId now store1 target
          ⟨none, some "user", some messageText, none, [], none⟩ with
      | Except.error e => (Except.error e, store1)
      | Except.ok (userMsg, store2) =>
          persistFinally now target agent.snapshot
            (match agent.outcome with
             | Except.ok response =>
                 match appendMessage freshId now store2 target
                     ⟨none, some "assistant", some response.text, none,
                      response.attachments, response.payload⟩ with
                 | Except.ok (am, store3) =>
                     (Except.ok ⟨target, response, userMsg, am⟩, store3)
                 | Except.error e => turnCatch freshId now store2 target e
             | Except.error e => turnCatch freshId now store2 target e)

def envOkExample : BigQueryEnv :=
  BigQueryEnv.mk (fun _ => Except.ok (Val.str "ds")) (fun _ => Except.ok Val.vnull)
    (fun _ => Except.ok Val.vnull) (fun _ => Except.ok Val.vnull)
    (fun _ => Except.ok Val.vnull)

/-- A concrete environment whose `list_datasets` collaborator rejects. -/
def envFailW : BigQueryEnv :=
  BigQueryEnv.mk (fun _ => Except.error "boom") (fun _ => Except.ok Val.vnull)
    (fun _ => Except.ok Val.vnull) (fun _ => Except.ok Val.vnull)
    (fun _ => Except.ok Val.vnull)

/-- The turn result of a chat against `envFailW` in which the single tool call
fails: the failure is captured in the record and fed back, and the turn still
completes. -/
def chatFailResW : ChatResult :=
  ChatResult.mk "t"
    [ToolCallRecord.mk "list_datasets" Val.vnull none (some "boom")]
    (ValidationResult.mk true [])
    [HistMessage.mk Role.user [Part.text "u"],
     HistMessage.mk Role.model [Part.functionCall "list_datasets" Val.vnull],
     HistMessage.mk Role.function
       [Part.functionResponse "list_datasets" (FnResp.error "boom")],
     HistMessage.mk Role.model [Part.text "t"]]

example :
    chat envOkExample none "u"
      [[Part.functionCall "list_datasets" Val.vnull], [Part.text "done"]] =
    some (ChatResult.mk "done"
      [ToolCallRecord.mk "list_datasets" Val.vnull (some (Val.str "ds")) none]
      (ValidationResult.mk true [])
      [HistMessage.mk Role.user [Part.text "u"],
       HistMessage.mk Role.model [Part.functionCall "list_datasets" Val.vnull],
       HistMessage.mk Role.function
         [Part.functionResponse "list_datasets" (FnResp.result (Val.str "ds"))],
       HistMessage.mk Role.model [Part.text "done"]]) := by
  rfl

/-- A concrete schema with two required sections, for witnesses. -/
def schemaW : Schema := Schema.mk "qt" ["SecA", "SecB"]

/-- A concrete stored conversation, for witnesses. -/
def convW : Conversation := Conversation.mk "c1" "T" "t0" "t0" [] []

/-- A concrete agent whose chat call throws, for witnesses. -/
def agentErrW : AgentModel :=
  AgentModel.mk (Except.error "model exploded") [Val.str "h1"]

/-- The turn result of the end-to-end example chat, for the C1 witness. -/
def resAlignW : ChatResult :=
  ChatResult.mk "two tables"
    [ToolCallRecord.mk "list_tables" (Val.str "d") (some Val.vnull) none]
    (ValidationResult.mk true [])
    [HistMessage.mk Role.user [Part.text "List my tables"],
     HistMessage.mk Role.model [Part.functionCall "list_tables" (Val.str "d")],
     HistMessage.mk Role.function
       [Part.functionResponse "list_tables" (FnResp.result Val.vnull)],
     HistMessage.mk Role.model [Part.text "two tables"]]

/-! ## Helper lemmas: substring containment -/

lemma startsWithChars_append (n ext : List Char) :
    ∀ l, startsWithChars l n = true → startsWithChars (l ++ ext) n = true := by
  induction n with
  | nil => intro l _; simp [startsWithChars]
  | cons c cs ih =>
      intro l h
      cases l with
      | nil => simp [startsWithChars] at h
      | cons x xs =>
          simp [startsWithChars] at h ⊢
          exact ⟨h.1, ih xs h.2⟩

lemma containsChars_nil_right (l : List Char) : containsChars l [] = true := by
  cases l <;> simp [containsChars, startsWithChars]

lemma containsChars_append_right (n b : List Char)
    (h : containsChars b n = true) (a : List Char) :
    containsChars (a ++ b) n = true := by
  induction a with
  | nil => simpa using h
  | cons x xs ih =>
      simp only [List.cons_append, containsChars, Bool.or_eq_true]
      exact Or.inr ih

lemma containsChars_append_left (n a : List Char)
    (h : containsChars a n = true) (b : List Char) :
    containsChars (a ++ b) n = true := by
  induction a with
  | nil =>
      simp [containsChars] at h
      cases n with
      | nil => simpa using containsChars_nil_right b
      | cons _ _ => simp [List.isEmpty] at h
  | cons x xs ih =>
      simp only [containsChars, Bool.or_eq_true, List.cons_append] at h ⊢
      rcases h with h1 | h2
      · exact Or.inl (startsWithChars_append n b (x :: xs) h1)
      · exact Or.inr (ih h2)

lemma toList_append (a b : String) : (a ++ b).toList = a.toList ++ b.toList :=
  String.data_append a b

lemma strContains_append_right (a b needle : String)
    (h : strContains b needle = true) : strContains (a ++ b) needle = true := by
  unfold strContains at h ⊢
  rw [toList_append]
  exact containsChars_append_right _ _ h _

lemma strContains_append_left (a b needle : String)
    (h : strContains a needle = true) : strContains (a ++ b) needle = true := by
  unfold strContains at h ⊢
  rw [toList_append]
  exact containsChars_append_left _ _ h _

/-! ## Helper lemmas: tool-call processing -/

lemma processCalls_fst_length (env : BigQueryEnv) :
    ∀ calls, (processCalls env calls).1.length = calls.length := by
  intro calls
  induction calls with
  | nil => rfl
  | cons c rest ih =>
      cases c with
      | mk n a => simp [processCalls, ih]

lemma execCall_resolved (env : BigQueryEnv) (n : String) (a : Val) :
    (execCall env n a).1.result.isSome = (execCall env n a).1.error.isNone := by
  unfold execCall
  cases executeToolCall env n a <;> rfl

lemma processCalls_resolved (env : BigQueryEnv) :
    ∀ calls tc, tc ∈ (processCalls env calls).1 →
      tc.result.isSome = tc.error.isNone := by
  intro calls
  induction calls with
  | nil => intro tc h; simp [processCalls] at h
  | cons c rest ih =>
      cases c with
      | mk n a =>
          intro tc h
          simp only [processCalls, List.mem_cons] at h
          rcases h with h | h
          · rw [h]; exact execCall_resolved env n a
          · exact ih tc h

lemma processCalls_snd_frNames (env : BigQueryEnv) :
    ∀ calls, frNames (processCalls env calls).2 = some (calls.map Prod.fst) := by
  intro calls
  induction calls with
  | nil => rfl
  | cons c rest ih =>
      cases c with
      | mk n a =>
          show frNames ((execCall env n a).2 :: (processCalls env rest).2) = _
          unfold execCall
          cases executeToolCall env n a <;> simp [frNames, ih]

lemma toolLoop_noFC (env : BigQueryEnv) (resp : List Part) (script : ModelScript)
    (h : hasFC resp = false) :
    toolLoop env resp script =
      some ⟨responseText resp, [],
            [HistMessage.mk Role.model [Part.text (responseText resp)]], script⟩ := by
  unfold toolLoop
  simp [h]

lemma toolLoop_FC (env : BigQueryEnv) (resp next : List Part)
    (rest : ModelScript) (h : hasFC resp = true) :
    toolLoop env resp (next :: rest) =
      match toolLoop env next rest with
      | none => none
      | some out =>
          some ⟨out.finalText, (processCalls env (fcParts resp)).1 ++ out.records,
                HistMessage.mk Role.model resp ::
                  HistMessage.mk Role.function (processCalls env (fcParts resp)).2 ::
                  out.delta,
                out.remaining⟩ := by
  cases htl : toolLoop env next rest with
  | none =>
      conv_lhs => rw [toolLoop]
      simp [h, htl]
  | some out =>
      conv_lhs => rw [toolLoop]
      simp [h, htl]

/-! ## C6: rate-limit delay floor -/

/-- C6: for every rate-limited model invocation, the retry delay computed by
the rate-limit guard is at least the configured floor of 60,000 ms regardless
of the provider-suggested delay; a suggestion of 3,000 ms yields 60,000 ms and
a suggestion of 120,000 ms yields 120,000 ms. -/
theorem C6_rate_limit_delay_floor :
    computeRateLimitDelayMs (some 3000) = 60000 ∧
    computeRateLimitDelayMs (some 120000) = 120000 ∧
    ∀ suggested : Option Nat,
      RATE_LIMIT_DELAY_FLOOR_MS ≤ computeRateLimitDelayMs suggested := by
  refine ⟨rfl, rfl, fun s => ?_⟩
  exact le_max_left _ _

/-! ## C2: tool-call loop iteration behavior -/

/-- C2: the inner tool-call loop exits as soon as a model response contains no
FunctionCall parts - producing no ToolCallRecords and issuing no further model
invocation (the script is left untouched) - and on a response whose
FunctionCall parts number N it produces exactly N ToolCallRecords (one per
call, in order), all placed ahead of any later records before the next model
invocation (the recursive call on the remaining script). -/
theorem C2_tool_loop_behavior (env : BigQueryEnv) (resp : List Part) :
    (hasFC resp = false → ∀ script, toolLoop env resp script =
        some ⟨responseText resp, [],
              [HistMessage.mk Role.model [Part.text (responseText resp)]], script⟩) ∧
    (hasFC resp = true → ∀ next rest, toolLoop env resp (next :: rest) =
        match toolLoop env next rest with
        | none => none
        | some out =>
            some ⟨out.finalText,
                  (processCalls env (fcParts resp)).1 ++ out.records,
                  HistMessage.mk Role.model resp ::
                    HistMessage.mk Role.function (processCalls env (fcParts resp)).2 ::
                    out.delta,
                  out.remaining⟩) ∧
    (processCalls env (fcParts resp)).1.length = (fcParts resp).length := by
  refine ⟨?_, ?_, processCalls_fst_length env _⟩
  · intro h script
    exact toolLoop_noFC env resp script h
  · intro h next rest
    exact toolLoop_FC env resp next rest h

/-- Witness for C2: a response with no FunctionCall parts exits the loop
immediately, and a response with exactly 2 FunctionCall parts yields exactly
2 ToolCallRecords. -/
theorem C2_witness :
    (hasFC [Part.text "plain"] = false ∧
      toolLoop envOkExample [Part.text "plain"] [] =
        some ⟨responseText [Part.text "plain"], [],
              [HistMessage.mk Role.model
                [Part.text (responseText [Part.text "plain"])]], []⟩) ∧
    (hasFC [Part.functionCall "run_query" (Val.str "q1"),
            Part.functionCall "run_query" (Val.str "q2")] = true ∧
      (processCalls envOkExample
        (fcParts [Part.functionCall "run_query" (Val.str "q1"),
                  Part.functionCall "run_query" (Val.str "q2")])).1.length =
        (fcParts [Part.functionCall "run_query" (Val.str "q1"),
                  Part.functionCall "run_query" (Val.str "q2")]).length ∧
      (fcParts [Part.functionCall "run_query" (Val.str "q1"),
                Part.functionCall "run_query" (Val.str "q2")]).length = 2) :=
  ⟨⟨rfl, (C2_tool_loop_behavior envOkExample [Part.text "plain"]).1 rfl []⟩,
   ⟨rfl, (C2_tool_loop_behavior envOkExample
      [Part.functionCall "run_query" (Val.str "q1"),
       Part.functionCall "run_query" (Val.str "q2")]).2.2, rfl⟩⟩

/-! ## Helper lemmas: loop continuation and resolved records -/

lemma toolLoop_cont (env : BigQueryEnv) (resp next : List Part)
    (rest : ModelScript) (h : hasFC resp = true) :
    (toolLoop env resp (next :: rest)).isSome = (toolLoop env next rest).isSome := by
  rw [toolLoop_FC env resp next rest h]
  cases toolLoop env next rest <;> rfl

lemma toolLoop_records_resolved (env : BigQueryEnv) :
    ∀ script resp out, toolLoop env resp script = some out →
      ∀ tc ∈ out.records, tc.result.isSome = tc.error.isNone := by
  intro script
  induction script with
  | nil =>
      intro resp out h tc htc
      cases hfc : hasFC resp with
      | true => rw [toolLoop] at h; simp [hfc] at h
      | false =>
          rw [toolLoop_noFC env resp [] hfc] at h
          cases h
          simp at htc
  | cons next rest ih =>
      intro resp out h tc htc
      cases hfc : hasFC resp with
      | false =>
          rw [toolLoop_noFC env resp (next :: rest) hfc] at h
          cases h
          simp at htc
      | true =>
          rw [toolLoop_FC env resp next rest hfc] at h
          cases htl : toolLoop env next rest with
          | none => rw [htl] at h; simp at h
          | some out2 =>
              rw [htl] at h
              injection h with h1
              subst h1
              simp only [List.mem_append] at htc
              rcases htc with h1 | h2
              · exact processCalls_resolved env _ tc h1
              · exact ih next out2 htl tc h2

lemma attemptRun_records_resolved (env : BigQueryEnv) (script : ModelScript)
    (out : LoopOut) (h : attemptRun env script = some out) :
    ∀ tc ∈ out.records, tc.result.isSome = tc.error.isNone := by
  cases script with
  | nil => simp [attemptRun] at h
  | cons resp rest => exact toolLoop_records_resolved env rest resp out h

lemma formatLoop_records_resolved (env : BigQueryEnv)
    (schemaConfig : Option Schema) :
    ∀ remaining script res,
      formatLoop env schemaConfig remaining script = some res →
      ∀ tc ∈ res.toolCalls, tc.result.isSome = tc.error.isNone := by
  intro remaining
  induction remaining with
  | zero =>
      intro script res h tc htc
      rw [formatLoop] at h
      cases ha : attemptRun env script with
      | none => rw [ha] at h; simp at h
      | some out =>
          rw [ha] at h
          cases schemaConfig with
          | none =>
              injection h with h1
              subst h1
              exact attemptRun_records_resolved env script out ha tc htc
          | some schema =>
              simp only at h
              by_cases hv :
                  (validateResponseAgainstTemplate out.finalText (some schema)).valid
              · rw [if_pos hv] at h
                injection h with h1
                subst h1
                exact attemptRun_records_resolved env script out ha tc htc
              · rw [if_neg hv] at h
                injection h with h1
                subst h1
                exact attemptRun_records_resolved env script out ha tc htc
  | succ r ih =>
      intro script res h tc htc
      rw [formatLoop] at h
      cases ha : attemptRun env script with
      | none => rw [ha] at h; simp at h
      | some out =>
          rw [ha] at h
          cases schemaConfig with
          | none =>
              injection h with h1
              subst h1
              exact attemptRun_records_resolved env script out ha tc htc
          | some schema =>
              simp only at h
              by_cases hv :
                  (validateResponseAgainstTemplate out.finalText (some schema)).valid
              · rw [if_pos hv] at h
                injection h with h1
                subst h1
                exact attemptRun_records_resolved env script out ha tc htc
              · rw [if_neg hv] at h
                cases hrec : formatLoop env (some schema) r out.remaining with
                | none => rw [hrec] at h; simp at h
                | some res2 =>
                    rw [hrec] at h
                    injection h with h1
                    subst h1
                    simp only [List.mem_append] at htc
                    rcases htc with h1 | h2
                    · exact attemptRun_records_resolved env script out ha tc h1
                    · exact ih out.remaining res2 hrec tc h2

lemma chat_records_resolved (env : BigQueryEnv) (schemaConfig : Option Schema)
    (msg : String) (script : ModelScript) (res : ChatResult)
    (h : chat env schemaConfig msg script = some res) :
    ∀ tc ∈ res.toolCalls, tc.result.isSome = tc.error.isNone := by
  rw [chat] at h
  cases hf : formatLoop env schemaConfig MAX_FORMAT_RETRIES script with
  | none => rw [hf] at h; simp at h
  | some r0 =>
      rw [hf] at h
      injection h with h1
      subst h1
      intro tc htc
      exact formatLoop_records_resolved env schemaConfig MAX_FORMAT_RETRIES
        script r0 hf tc htc

/-! ## C4: unknown tool names are captured, not fatal -/

/-- C4 counterexample: with a registered-tools environment and a model that
calls the unregistered tool name "bogus", the turn does not abort: `chat`
completes, the unknown-tool error is captured in that call's
ToolCallRecord.error, and it is fed back to the model as a FunctionResponse
error part. -/
theorem C4_counterexample :
    chat envOkExample none "u"
      [[Part.functionCall "bogus" Val.vnull], [Part.text "done"]] =
    some (ChatResult.mk "done"
      [ToolCallRecord.mk "bogus" Val.vnull none (some "Unknown tool: bogus")]
      (ValidationResult.mk true [])
      [HistMessage.mk Role.user [Part.text "u"],
       HistMessage.mk Role.model [Part.functionCall "bogus" Val.vnull],
       HistMessage.mk Role.function
         [Part.functionResponse "bogus" (FnResp.error "Unknown tool: bogus")],
       HistMessage.mk Role.model [Part.text "done"]]) := by
  rfl

/-- C4 (amended): when the model issues a FunctionCall whose name is not one
of the registered tool names, `executeToolCall` throws the unknown-tool error,
but the try/catch in the tool-call loop captures it into that call's
ToolCallRecord.error and feeds it back to the model as a FunctionResponse
error part; the loop continues and the turn does not abort. -/
theorem C4_unknown_tool_captured (env : BigQueryEnv) (name : String) (args : Val)
    (h : name ∉ registeredToolNames) :
    executeToolCall env name args = Except.error ("Unknown tool: " ++ name) ∧
    execCall env name args =
      (ToolCallRecord.mk name args none (some ("Unknown tool: " ++ name)),
       Part.functionResponse name (FnResp.error ("Unknown tool: " ++ name))) ∧
    ∀ next rest,
      (toolLoop env [Part.functionCall name args] (next :: rest)).isSome =
        (toolLoop env next rest).isSome := by
  have h5 : ¬name = "list_datasets" ∧ ¬name = "list_tables" ∧
      ¬name = "get_table_schema" ∧ ¬name = "run_query" ∧ ¬name = "forecast" := by
    simpa [registeredToolNames] using h
  obtain ⟨h1, h2, h3, h4, h5⟩ := h5
  have hexec : executeToolCall env name args =
      Except.error ("Unknown tool: " ++ name) := by
    simp [executeToolCall, beq_iff_eq, h1, h2, h3, h4, h5]
  refine ⟨hexec, ?_, ?_⟩
  · simp [execCall, hexec]
  · intro next rest
    exact toolLoop_cont env [Part.functionCall name args] next rest rfl

/-- Witness for the amended C4: the concrete unregistered name "bogus". -/
theorem C4_witness :
    "bogus" ∉ registeredToolNames ∧
    executeToolCall envOkExample "bogus" Val.vnull =
      Except.error ("Unknown tool: " ++ "bogus") ∧
    execCall envOkExample "bogus" Val.vnull =
      (ToolCallRecord.mk "bogus" Val.vnull none
        (some ("Unknown tool: " ++ "bogus")),
       Part.functionResponse "bogus"
        (FnResp.error ("Unknown tool: " ++ "bogus"))) ∧
    ∀ next rest,
      (toolLoop envOkExample [Part.functionCall "bogus" Val.vnull]
          (next :: rest)).isSome =
        (toolLoop envOkExample next rest).isSome :=
  ⟨by decide, (C4_unknown_tool_captured envOkExample "bogus" Val.vnull (by decide)).1,
   (C4_unknown_tool_captured envOkExample "bogus" Val.vnull (by decide)).2.1,
   (C4_unknown_tool_captured envOkExample "bogus" Val.vnull (by decide)).2.2⟩

/-! ## C5: tool failures are captured per call and do not abort the loop -/

/-- C5: a failure of the underlying tool does not abort the tool-call loop:
the thrown message is stored in that call's ToolCallRecord.error and sent back
to the model as a FunctionResponse part carrying the error, the loop's
progress is independent of tool outcomes, and in every resolved ToolCallRecord
surfaced by `chat` exactly one of `result` and `error` is non-null. -/
theorem C5_tool_failure_recoverable :
    (∀ env name args e, executeToolCall env name args = Except.error e →
        execCall env name args =
          (ToolCallRecord.mk name args none (some e),
           Part.functionResponse name (FnResp.error e))) ∧
    (∀ env resp next rest, hasFC resp = true →
        (toolLoop env resp (next :: rest)).isSome =
          (toolLoop env next rest).isSome) ∧
    (∀ env schemaConfig msg script res,
        chat env schemaConfig msg script = some res →
        ∀ tc ∈ res.toolCalls, tc.result.isSome = tc.error.isNone) := by
  refine ⟨?_, ?_, ?_⟩
  · intro env name args e he
    simp [execCall, he]
  · intro env resp next rest h
    exact toolLoop_cont env resp next rest h
  · intro env schemaConfig msg script res h
    exact chat_records_resolved env schemaConfig msg script res h

/-- Witness for C5: a concrete failing tool call whose error is captured, and
the resulting completed chat whose only record has null result and non-null
error. -/
theorem C5_witness :
    (executeToolCall envFailW "list_datasets" Val.vnull = Except.error "boom" ∧
      execCall envFailW "list_datasets" Val.vnull =
        (ToolCallRecord.mk "list_datasets" Val.vnull none (some "boom"),
         Part.functionResponse "list_datasets" (FnResp.error "boom"))) ∧
    (chat envFailW none "u"
        [[Part.functionCall "list_datasets" Val.vnull], [Part.text "t"]] =
      some chatFailResW ∧
      ∀ tc ∈ chatFailResW.toolCalls, tc.result.isSome = tc.error.isNone) :=
  ⟨⟨rfl, C5_tool_failure_recoverable.1 envFailW "list_datasets" Val.vnull "boom" rfl⟩,
   ⟨rfl, C5_tool_failure_recoverable.2.2 envFailW none "u"
      [[Part.functionCall "list_datasets" Val.vnull], [Part.text "t"]]
      chatFailResW rfl⟩⟩

/-! ## Helper lemmas: streaming aggregation -/

lemma aggText_zero_textEntryCount :
    ∀ parts, textEntryCount parts = 0 → aggText parts = "" := by
  intro parts
  induction parts with
  | nil => intro _; rfl
  | cons p rest ih =>
      intro h
      cases p with
      | text s => simp [textEntryCount, isTextAgg] at h
      | functionCall n a =>
          simp only [textEntryCount, isTextAgg] at h
          simp only [aggText]
          exact ih (by omega)

lemma appendTextFragment_spec (s : String) :
    ∀ acc, textEntryCount acc ≤ 1 →
      aggText (appendTextFragment acc s) = aggText acc ++ s ∧
      textEntryCount (appendTextFragment acc s) ≤ 1 := by
  intro acc
  induction acc with
  | nil =>
      intro _
      refine ⟨?_, ?_⟩
      · show aggText [AggPart.text s] = "" ++ s
        simp [aggText, String.append_empty, String.empty_append]
      · simp [appendTextFragment, textEntryCount, isTextAgg]
  | cons p rest ih =>
      intro h
      cases p with
      | text c =>
          have hrest : textEntryCount rest = 0 := by
            simp only [textEntryCount, isTextAgg, if_pos] at h
            omega
          refine ⟨?_, ?_⟩
          · show aggText (AggPart.text (c ++ s) :: rest) =
              aggText (AggPart.text c :: rest) ++ s
            simp [aggText, aggText_zero_textEntryCount rest hrest,
              String.append_empty]
          · show textEntryCount (AggPart.text (c ++ s) :: rest) ≤ 1
            simp [textEntryCount, isTextAgg, hrest]
      | functionCall n a =>
          have hrest : textEntryCount rest ≤ 1 := by
            simp only [textEntryCount, isTextAgg] at h
            omega
          obtain ⟨ih1, ih2⟩ := ih hrest
          refine ⟨?_, ?_⟩
          · show aggText (AggPart.functionCall n a :: appendTextFragment rest s) =
              aggText (AggPart.functionCall n a :: rest) ++ s
            simp [aggText, ih1]
          · show textEntryCount
                (AggPart.functionCall n a :: appendTextFragment rest s) ≤ 1
            simpa [textEntryCount, isTextAgg] using ih2

lemma aggText_map_nontext (f : AggPart → AggPart)
    (htext : ∀ s, f (AggPart.text s) = AggPart.text s)
    (hfc : ∀ m b, isTextAgg (f (AggPart.functionCall m b)) = false) :
    ∀ acc, aggText (acc.map f) = aggText acc := by
  intro acc
  induction acc with
  | nil => rfl
  | cons p rest ih =>
      cases p with
      | text s => simp [aggText, htext s, ih]
      | functionCall m b =>
          cases hf : f (AggPart.functionCall m b) with
          | text s2 =>
              exfalso
              have := hfc m b
              rw [hf] at this
              simp [isTextAgg] at this
          | functionCall m2 b2 => simp [aggText, hf, ih]

lemma textEntryCount_map_nontext (f : AggPart → AggPart)
    (htext : ∀ s, f (AggPart.text s) = AggPart.text s)
    (hfc : ∀ m b, isTextAgg (f (AggPart.functionCall m b)) = false) :
    ∀ acc, textEntryCount (acc.map f) = textEntryCount acc := by
  intro acc
  induction acc with
  | nil => rfl
  | cons p rest ih =>
      cases p with
      | text s => simp [textEntryCount, htext s, ih]
      | functionCall m b =>
          cases hf : f (AggPart.functionCall m b) with
          | text s2 =>
              exfalso
              have := hfc m b
              rw [hf] at this
              simp [isTextAgg] at this
          | functionCall m2 b2 =>
              simp [textEntryCount, hf, isTextAgg, ih]

lemma aggText_append :
    ∀ l1 l2 : List AggPart, aggText (l1 ++ l2) = aggText l1 ++ aggText l2 := by
  intro l1 l2
  induction l1 with
  | nil => simp [aggText, String.empty_append]
  | cons p rest ih =>
      cases p with
      | text s => simp [aggText, ih, String.append_assoc]
      | functionCall m b => simp [aggText, ih]

lemma textEntryCount_append :
    ∀ l1 l2 : List AggPart,
      textEntryCount (l1 ++ l2) = textEntryCount l1 + textEntryCount l2 := by
  intro l1 l2
  induction l1 with
  | nil => simp [textEntryCount]
  | cons p rest ih =>
      show textEntryCount (p :: (rest ++ l2)) =
        textEntryCount (p :: rest) + textEntryCount l2
      simp only [textEntryCount]
      rw [ih]
      omega

lemma addPartial_spec (p : AggPart) :
    ∀ acc, textEntryCount acc ≤ 1 →
      aggText (addPartial acc p) = aggText acc ++ fragText p ∧
      textEntryCount (addPartial acc p) ≤ 1 := by
  intro acc h
  cases p with
  | text s => exact appendTextFragment_spec s acc h
  | functionCall n a =>
      show aggText (addPartial acc (AggPart.functionCall n a)) = aggText acc ++ "" ∧ _
      rw [String.append_empty]
      have hred : addPartial acc (AggPart.functionCall n a) =
          (if (acc.any fun p => match p with
              | AggPart.functionCall m _ => m == n
              | _ => false) then
            acc.map (fun p => match p with
              | AggPart.functionCall m b =>
                  if m == n then AggPart.functionCall m (mergeArgs b a)
                  else AggPart.functionCall m b
              | other => other)
          else acc ++ [AggPart.functionCall n a]) := rfl
      rw [hred]
      by_cases hex : (acc.any (fun p => match p with
          | AggPart.functionCall m _ => m == n
          | _ => false)) = true
      · rw [if_pos hex]
        have htext : ∀ s, (fun p => match p with
            | AggPart.functionCall m b =>
                if m == n then AggPart.functionCall m (mergeArgs b a)
                else AggPart.functionCall m b
            | other => other) (AggPart.text s) = AggPart.text s := fun _ => rfl
        have hfc : ∀ m b, isTextAgg ((fun p => match p with
            | AggPart.functionCall m b =>
                if m == n then AggPart.functionCall m (mergeArgs b a)
                else AggPart.functionCall m b
            | other => other) (AggPart.functionCall m b)) = false := by
          intro m b
          by_cases hmn : (m == n) = true <;> simp [hmn, isTextAgg]
        refine ⟨aggText_map_nontext _ htext hfc acc, ?_⟩
        rw [textEntryCount_map_nontext _ htext hfc acc]
        exact h
      · rw [if_neg hex]
        refine ⟨?_, ?_⟩
        · rw [aggText_append]
          simp [aggText, String.append_empty]
        · rw [textEntryCount_append]
          simpa [textEntryCount, isTextAgg] using h

lemma foldl_addPartial_chunk :
    ∀ chunk acc, textEntryCount acc ≤ 1 →
      aggText (chunk.foldl addPartial acc) = aggText acc ++ chunkText chunk ∧
      textEntryCount (chunk.foldl addPartial acc) ≤ 1 := by
  intro chunk
  induction chunk with
  | nil =>
      intro acc h
      exact ⟨by simp [chunkText, String.append_empty], h⟩
  | cons p ps ih =>
      intro acc h
      obtain ⟨h1, h2⟩ := addPartial_spec p acc h
      obtain ⟨h3, h4⟩ := ih (addPartial acc p) h2
      refine ⟨?_, h4⟩
      rw [List.foldl_cons, h3, h1, String.append_assoc]
      simp [chunkText]

lemma foldl_addPartial_chunks :
    ∀ chunks acc, textEntryCount acc ≤ 1 →
      aggText (chunks.foldl (fun acc chunk => chunk.foldl addPartial acc) acc) =
        aggText acc ++ chunksText chunks ∧
      textEntryCount
        (chunks.foldl (fun acc chunk => chunk.foldl addPartial acc) acc) ≤ 1 := by
  intro chunks
  induction chunks with
  | nil =>
      intro acc h
      exact ⟨by simp [chunksText, String.append_empty], h⟩
  | cons c cs ih =>
      intro acc h
      obtain ⟨h1, h2⟩ := foldl_addPartial_chunk c acc h
      obtain ⟨h3, h4⟩ := ih (c.foldl addPartial acc) h2
      refine ⟨?_, h4⟩
      rw [List.foldl_cons, h3, h1, String.append_assoc]
      simp [chunksText]

/-! ## C7: aggregated text is the in-order concatenation of fragments -/

/-- C7: for every sequence of stream chunks, the aggregated message's text
equals the in-order concatenation of all text fragments observed across the
chunks. -/
theorem C7_aggregate_text_concat (chunks : List (List AggPart)) :
    aggText (aggregateChunks chunks) = chunksText chunks := by
  have h := foldl_addPartial_chunks chunks [] (by simp [textEntryCount])
  rw [aggregateChunks]
  rw [h.1]
  show "" ++ chunksText chunks = chunksText chunks
  exact String.empty_append _

lemma responseText_single (t : String) : responseText [Part.text t] = t := by
  show "" ++ t = t
  exact String.empty_append t

/-! ## C3: at most one corrective retry, then a WARNING soft failure -/

/-- C3: with a non-null response schema, when the first model text fails
validation exactly one corrective User message is appended and the chat is
re-run; when the text after that single retry still fails validation, the turn
does not fail: `chat` returns the second text with the literal WARNING suffix
enumerating the missing sections and a validation result with valid = false.
The two-response script shows no third model invocation is issued. -/
theorem C3_template_enforcement (env : BigQueryEnv) (s : Schema)
    (msg t1 t2 : String)
    (h1 : (validateResponseAgainstTemplate t1 (some s)).valid = false)
    (h2 : (validateResponseAgainstTemplate t2 (some s)).valid = false) :
    chat env (some s) msg [[Part.text t1], [Part.text t2]] =
      some (ChatResult.mk
        (t2 ++ warningSuffix
          (validateResponseAgainstTemplate t2 (some s)).missingSections)
        []
        (validateResponseAgainstTemplate t2 (some s))
        [HistMessage.mk Role.user [Part.text msg],
         HistMessage.mk Role.model [Part.text t1],
         HistMessage.mk Role.user
           [Part.text (correctionPrompt s
             (validateResponseAgainstTemplate t1 (some s)).missingSections)],
         HistMessage.mk Role.model [Part.text t2]]) ∧
    strContains
      (t2 ++ warningSuffix
        (validateResponseAgainstTemplate t2 (some s)).missingSections)
      "WARNING" = true ∧
    (validateResponseAgainstTemplate t2 (some s)).valid = false := by
  have ha2 : attemptRun env [[Part.text t2]] =
      some ⟨t2, [], [HistMessage.mk Role.model [Part.text t2]], []⟩ := by
    show toolLoop env [Part.text t2] [] = _
    rw [toolLoop_noFC env [Part.text t2] [] rfl, responseText_single]
  have ha1 : attemptRun env [[Part.text t1], [Part.text t2]] =
      some ⟨t1, [], [HistMessage.mk Role.model [Part.text t1]], [[Part.text t2]]⟩ := by
    show toolLoop env [Part.text t1] [[Part.text t2]] = _
    rw [toolLoop_noFC env [Part.text t1] [[Part.text t2]] rfl, responseText_single]
  have hf0 : formatLoop env (some s) 0 [[Part.text t2]] =
      some ⟨t2 ++ warningSuffix
              (validateResponseAgainstTemplate t2 (some s)).missingSections,
            [], validateResponseAgainstTemplate t2 (some s),
            [HistMessage.mk Role.model [Part.text t2]]⟩ := by
    rw [formatLoop, ha2]
    simp only
    rw [if_neg (by simp [h2])]
  have hf1 : formatLoop env (some s) 1 [[Part.text t1], [Part.text t2]] =
      some ⟨t2 ++ warningSuffix
              (validateResponseAgainstTemplate t2 (some s)).missingSections,
            [], validateResponseAgainstTemplate t2 (some s),
            [HistMessage.mk Role.model [Part.text t1],
             HistMessage.mk Role.user
               [Part.text (correctionPrompt s
                 (validateResponseAgainstTemplate t1 (some s)).missingSections)],
             HistMessage.mk Role.model [Part.text t2]]⟩ := by
    rw [formatLoop, ha1]
    simp only
    rw [if_neg (by simp [h1])]
    simp only [hf0]
    rfl
  refine ⟨?_, ?_, h2⟩
  · rw [chat]
    rw [show MAX_FORMAT_RETRIES = 1 from rfl]
    rw [hf1]
  · apply strContains_append_right
    rw [warningSuffix]
    apply strContains_append_left
    rfl

/-- Witness for C3: schema requires the sections SecA and SecB; both responses
contain only SecA, so both validations fail, one corrective message is sent,
and the final text carries the WARNING suffix naming SecB. -/
theorem C3_witness :
    ((validateResponseAgainstTemplate "SecA one" (some schemaW)).valid = false ∧
     (validateResponseAgainstTemplate "SecA two" (some schemaW)).valid = false) ∧
    (chat envOkExample (some schemaW) "m"
        [[Part.text "SecA one"], [Part.text "SecA two"]] =
      some (ChatResult.mk
        ("SecA two" ++ warningSuffix
          (validateResponseAgainstTemplate "SecA two" (some schemaW)).missingSections)
        []
        (validateResponseAgainstTemplate "SecA two" (some schemaW))
        [HistMessage.mk Role.user [Part.text "m"],
         HistMessage.mk Role.model [Part.text "SecA one"],
         HistMessage.mk Role.user
           [Part.text (correctionPrompt schemaW
             (validateResponseAgainstTemplate "SecA one" (some schemaW)).missingSections)],
         HistMessage.mk Role.model [Part.text "SecA two"]]) ∧
      strContains
        ("SecA two" ++ warningSuffix
          (validateResponseAgainstTemplate "SecA two" (some schemaW)).missingSections)
        "WARNING" = true ∧
      (validateResponseAgainstTemplate "SecA two" (some schemaW)).valid = false) :=
  ⟨⟨by decide, by decide⟩,
   C3_template_enforcement envOkExample schemaW "m" "SecA one" "SecA two"
     (by decide) (by decide)⟩

/-! ## C8: moodboard trigger with unparsable inline JSON -/

/-- C8: when the user message contains the moodboard trigger token (detected
case-insensitively) and the text following the trigger line does not parse as
a JSON payload, preparing the trigger context does not throw and does not
fail the turn: the payload falls back to the configured default source (the
mock RA input file), and only when that also fails does the preparation
return the error context. -/
theorem C8_trigger_json_fallback (env : MoodboardEnv) (msg : String)
    (h1 : containsTrigger msg = true)
    (h2 : ∀ content, inlineRaContent msg = some content →
        env.parseInlineJson content = none) :
    prepareMoodboardContext env msg =
      some (match env.raFileInput with
        | some ra => MoodboardPreparation.context ra
        | none => MoodboardPreparation.errorContext
            "Failed to load RA input. Please ensure mock_ra_input.json exists or provide valid JSON in the message.") := by
  rw [prepareMoodboardContext]
  rw [h1]
  simp only [Bool.not_true, Bool.false_eq_true, if_false]
  cases hc : inlineRaContent msg with
  | none =>
      simp only
      cases env.raFileInput <;> rfl
  | some content =>
      simp only [h2 content hc]
      cases env.raFileInput <;> rfl

/-- Witness for C8: the message "MOODBOARD_RA" followed by a line that the
JSON parser rejects, with the default RA file available. -/
theorem C8_witness :
    containsTrigger "MOODBOARD_RA\nnot-json" = true ∧
    prepareMoodboardContext
      (MoodboardEnv.mk (fun _ => none) (some (Val.str "ra")))
      "MOODBOARD_RA\nnot-json" =
      some (MoodboardPreparation.context (Val.str "ra")) :=
  ⟨by decide,
   C8_trigger_json_fallback
     (MoodboardEnv.mk (fun _ => none) (some (Val.str "ra")))
     "MOODBOARD_RA\nnot-json" (by decide) (fun _ _ => rfl)⟩

/-! ## Helper lemmas: conversation store -/

lemma insertByUpdatedAt_perm (c : Conversation) :
    ∀ l, (insertByUpdatedAt c l).Perm (c :: l) := by
  intro l
  induction l with
  | nil => exact List.Perm.refl _
  | cons d rest ih =>
      by_cases hcd : d.updatedAt < c.updatedAt
      · simp only [insertByUpdatedAt, if_pos hcd]
        exact List.Perm.refl _
      · simp only [insertByUpdatedAt, if_neg hcd]
        exact (ih.cons d).trans (List.Perm.swap c d rest)

lemma sortConversations_perm :
    ∀ l, (sortConversations l).Perm l := by
  intro l
  induction l with
  | nil => exact List.Perm.refl _
  | cons c rest ih =>
      show (insertByUpdatedAt c (sortConversations rest)).Perm (c :: rest)
      exact (insertByUpdatedAt_perm c (sortConversations rest)).trans (ih.cons c)

lemma mem_sortConversations (a : Conversation) (l : List Conversation) :
    a ∈ sortConversations l ↔ a ∈ l :=
  (sortConversations_perm l).mem_iff

lemma findConversation_id {l : List Conversation} {cid : String}
    {conv : Conversation} (h : findConversation l cid = some conv) :
    conv.id = cid := by
  have := List.find?_some h
  simpa using this

lemma findConversation_cons (d : Conversation) (rest : List Conversation)
    (cid : String) :
    findConversation (d :: rest) cid =
      if d.id == cid then some d else findConversation rest cid := by
  show List.find? (fun c => c.id == cid) (d :: rest) = _
  cases hd : (d.id == cid) <;> simp [List.find?, hd, findConversation]

lemma findConversation_eq_of_nodup {cid : String} :
    ∀ l : List Conversation, (l.map (fun c => c.id)).Nodup →
      ∀ c ∈ l, c.id = cid → findConversation l cid = some c := by
  intro l
  induction l with
  | nil => intro _ c hc; cases hc
  | cons d rest ih =>
      intro hn c hc hid
      rw [List.map_cons, List.nodup_cons] at hn
      rw [findConversation_cons]
      by_cases hd : (d.id == cid) = true
      · have hdc : d = c := by
          rcases List.mem_cons.mp hc with h | h
          · exact h.symm
          · exfalso
            have hdcid : d.id = cid := by simpa using hd
            have : d.id ∈ rest.map (fun c => c.id) := by
              rw [hdcid, ← hid]
              exact List.mem_map_of_mem _ h
            exact hn.1 this
        rw [if_pos hd, hdc]
      · have hcr : c ∈ rest := by
          rcases List.mem_cons.mp hc with h | h
          · exfalso
            apply hd
            rw [← h]
            simp [hid]
          · exact h
        rw [if_neg hd]
        exact ih hn.2 c hcr hid

lemma replaceFirstById_map_id (cid : String) (c' : Conversation)
    (hid : c'.id = cid) :
    ∀ l, (replaceFirstById cid c' l).map (fun c => c.id) =
      l.map (fun c => c.id) := by
  intro l
  induction l with
  | nil => rfl
  | cons d rest ih =>
      by_cases hd : (d.id == cid) = true
      · simp only [replaceFirstById, if_pos hd, List.map_cons]
        rw [hid]
        have : d.id = cid := by simpa using hd
        rw [this]
      · simp only [replaceFirstById, if_neg hd, List.map_cons, ih]

lemma mem_replaceFirstById (cid : String) (c' : Conversation) :
    ∀ l conv, findConversation l cid = some conv →
      c' ∈ replaceFirstById cid c' l := by
  intro l
  induction l with
  | nil => intro conv h; simp [findConversation] at h
  | cons d rest ih =>
      intro conv h
      by_cases hd : (d.id == cid) = true
      · simp [replaceFirstById, hd]
      · simp only [replaceFirstById, if_neg hd]
        rw [findConversation_cons, if_neg hd] at h
        exact List.mem_cons_of_mem d (ih conv h)

lemma update_find_nodup (store : List Conversation) (cid : String)
    (conv c' : Conversation)
    (hn : (store.map (fun c => c.id)).Nodup)
    (hfind : findConversation store cid = some conv)
    (hid : c'.id = cid) :
    findConversation (sortConversations (replaceFirstById cid c' store)) cid =
      some c' ∧
    ((sortConversations (replaceFirstById cid c' store)).map
      (fun c => c.id)).Nodup := by
  have hids := replaceFirstById_map_id cid c' hid store
  have hn' : ((replaceFirstById cid c' store).map (fun c => c.id)).Nodup := by
    rw [hids]; exact hn
  have hperm := sortConversations_perm (replaceFirstById cid c' store)
  have hn2 : ((sortConversations (replaceFirstById cid c' store)).map
      (fun c => c.id)).Nodup := ((hperm.map _).nodup_iff).mpr hn'
  have hmem : c' ∈ sortConversations (replaceFirstById cid c' store) :=
    hperm.mem_iff.mpr (mem_replaceFirstById cid c' store conv hfind)
  exact ⟨findConversation_eq_of_nodup _ hn2 c' hmem hid, hn2⟩

/-! ## C10: error-role messages are returned but never persisted -/

/-- C10: for every existing conversation, appending a message whose role is
"error" returns the normalized copy of that message but leaves the store
fully unchanged - the conversation's persisted messages and all its other
fields are untouched - and messages with role "error" found in the store
file are filtered out on load. -/
theorem C10_error_role_not_persisted (freshId now : String)
    (store : List Conversation) (cid : String) (m : InMessage)
    (conv : Conversation)
    (hfind : findConversation store cid = some conv)
    (hrole : m.role = some "error") :
    appendMessage freshId now store cid m =
      Except.ok
        (StoreMessage.mk (jsOrString m.id freshId) "error" (m.content.getD "")
          (jsOrString m.timestamp now) none none, store) ∧
    ∀ raws, ∀ c ∈ loadConversations freshId now raws,
      ∀ msg2 ∈ c.messages, msg2.role ≠ "error" := by
  constructor
  · have hnorm : normalizeMessage freshId now m =
        some (StoreMessage.mk (jsOrString m.id freshId) "error"
          (m.content.getD "") (jsOrString m.timestamp now) none none) := by
      rw [normalizeMessage, hrole]
      rfl
    rw [appendMessage, hfind, hnorm]
    rfl
  · intro raws c hc msg2 hmsg2
    rw [loadConversations, mem_sortConversations] at hc
    obtain ⟨raw, _, hload⟩ := List.mem_map.mp hc
    rw [← hload] at hmsg2
    simp only [loadConversation] at hmsg2
    have := List.of_mem_filter hmsg2
    simpa using this

/-- Witness for C10: a concrete store and a concrete error-role message. -/
theorem C10_witness :
    findConversation [convW] "c1" = some convW ∧
    (InMessage.mk none (some "error") (some "boom") none [] none).role =
      some "error" ∧
    appendMessage "u1" "t1" [convW] "c1"
        (InMessage.mk none (some "error") (some "boom") none [] none) =
      Except.ok
        (StoreMessage.mk "u1" "error" "boom" "t1" none none, [convW]) :=
  ⟨by decide, rfl,
   (C10_error_role_not_persisted "u1" "t1" [convW] "c1"
      (InMessage.mk none (some "error") (some "boom") none [] none) convW
      (by decide) rfl).1⟩

/-! ## Helper lemmas: store mutations -/

lemma appendMessage_nonerror (freshId now : String) (store : List Conversation)
    (cid : String) (m : InMessage) (conv : Conversation) (entry : StoreMessage)
    (hfind : findConversation store cid = some conv)
    (hnorm : normalizeMessage freshId now m = some entry)
    (hrole : (entry.role == "error") = false) :
    appendMessage freshId now store cid m =
      Except.ok (entry, sortConversations (replaceFirstById cid
        { conv with messages := conv.messages ++ [entry], updatedAt := now }
        store)) := by
  rw [appendMessage, hfind, hnorm]
  simp only [hrole, Bool.false_eq_true, if_false]

lemma appendMessage_error_role (freshId now : String)
    (store : List Conversation) (cid : String) (m : InMessage)
    (conv : Conversation)
    (hfind : findConversation store cid = some conv)
    (hrole : m.role = some "error") :
    appendMessage freshId now store cid m =
      Except.ok
        (StoreMessage.mk (jsOrString m.id freshId) "error" (m.content.getD "")
          (jsOrString m.timestamp now) none none, store) := by
  have hnorm : normalizeMessage freshId now m =
      some (StoreMessage.mk (jsOrString m.id freshId) "error"
        (m.content.getD "") (jsOrString m.timestamp now) none none) := by
    rw [normalizeMessage, hrole]
    rfl
  rw [appendMessage, hfind, hnorm]
  rfl

lemma setModelHistory_ok (now : String) (store : List Conversation)
    (cid : String) (conv : Conversation) (history : List Val)
    (hfind : findConversation store cid = some conv) :
    setModelHistory now store cid history =
      Except.ok (sortConversations (replaceFirstById cid
        { conv with modelHistory := history, updatedAt := now } store)) := by
  rw [setModelHistory, hfind]

lemma appendMessage_preserves (freshId now cid : String) :
    ∀ (store : List Conversation) (m : InMessage) (conv : Conversation)
      (entry : StoreMessage) (store2 : List Conversation),
      (store.map (fun c => c.id)).Nodup →
      findConversation store cid = some conv →
      appendMessage freshId now store cid m = Except.ok (entry, store2) →
      (∃ conv2, findConversation store2 cid = some conv2) ∧
      (store2.map (fun c => c.id)).Nodup := by
  intro store m conv entry store2 hn hfind happ
  cases hnorm : normalizeMessage freshId now m with
  | none =>
      rw [appendMessage, hfind, hnorm] at happ
      cases happ
  | some e =>
      by_cases hrole : (e.role == "error") = true
      · rw [appendMessage, hfind, hnorm] at happ
        simp only [hrole, if_true] at happ
        injection happ with h1
        have h2 : store2 = store := (congrArg Prod.snd h1).symm
        subst h2
        exact ⟨⟨conv, hfind⟩, hn⟩
      · rw [appendMessage_nonerror freshId now store cid m conv e hfind hnorm
          (by simpa using hrole)] at happ
        injection happ with h1
        have h2 : store2 = sortConversations (replaceFirstById cid
            { conv with messages := conv.messages ++ [e], updatedAt := now }
            store) := (congrArg Prod.snd h1).symm
        subst h2
        obtain ⟨hf, hnd⟩ := update_find_nodup store cid conv
          { conv with messages := conv.messages ++ [e], updatedAt := now }
          hn hfind
          (by have h : conv.id = cid := findConversation_id hfind; exact h)
        exact ⟨⟨_, hf⟩, hnd⟩

lemma setModelHistory_persists (now cid : String) (snapshot : List Val) :
    ∀ (store : List Conversation) (conv : Conversation)
      (store2 : List Conversation),
      (store.map (fun c => c.id)).Nodup →
      findConversation store cid = some conv →
      setModelHistory now store cid snapshot = Except.ok store2 →
      (findConversation store2 cid).map (fun c => c.modelHistory) =
        some snapshot := by
  intro store conv store2 hn hfind hset
  rw [setModelHistory_ok now store cid conv snapshot hfind] at hset
  injection hset with h1
  subst h1
  obtain ⟨hf, _⟩ := update_find_nodup store cid conv
    { conv with modelHistory := snapshot, updatedAt := now } hn hfind
    (by have h : conv.id = cid := findConversation_id hfind; exact h)
  rw [hf]
  rfl

/-! ## C9: the model-history snapshot is persisted on success and failure -/

/-- C9: for every conversation turn on an existing conversation, the model
history snapshot accumulated during the turn is written back to the
conversation store at the end of the turn on both the success path and the
failure path: the final store always holds the agent's snapshot as the
conversation's modelHistory, and when the agent's chat call throws, the error
still propagates (after the snapshot was persisted). -/
theorem C9_snapshot_persisted (freshId now : String)
    (store : List Conversation) (cid : String) (messageText : String)
    (agent : AgentModel) (conv : Conversation)
    (hn : (store.map (fun c => c.id)).Nodup)
    (hfind : findConversation store cid = some conv)
    (hcid : cid ≠ "") :
    (findConversation
        (runConversationTurn freshId now store (some cid) messageText agent).2
        cid).map (fun c => c.modelHistory) = some agent.snapshot ∧
    (∀ e, agent.outcome = Except.error e →
      (runConversationTurn freshId now store (some cid) messageText agent).1 =
        Except.error e) := by
  have hc1 : (cid == "") = false := by simpa using hcid
  have hc2 : (findConversation store cid).isSome = true := by rw [hfind]; rfl
  have hens : ensureConversationId freshId now store (some cid) =
      Except.ok (cid, store) := by
    rw [ensureConversationId]
    simp only [hc1, Bool.false_eq_true, if_false, hc2, if_true]
  have happU : appendMessage freshId now store cid
      ⟨none, some "user", some messageText, none, [], none⟩ =
      Except.ok
        (StoreMessage.mk freshId "user" messageText now none none,
         sortConversations (replaceFirstById cid
           { conv with
             messages := conv.messages ++
               [StoreMessage.mk freshId "user" messageText now none none],
             updatedAt := now } store)) :=
    appendMessage_nonerror freshId now store cid _ conv _ hfind rfl rfl
  obtain ⟨⟨conv2, hfind2⟩, hn2⟩ :=
    appendMessage_preserves freshId now cid store _ conv _ _ hn hfind happU
  cases hout : agent.outcome with
  | ok response =>
      have happA := appendMessage_nonerror freshId now
        (sortConversations (replaceFirstById cid
          { conv with
            messages := conv.messages ++
              [StoreMessage.mk freshId "user" messageText now none none],
            updatedAt := now } store)) cid
        ⟨none, some "assistant", some response.text, none,
         response.attachments, response.payload⟩ conv2
        (StoreMessage.mk freshId "assistant" response.text now
          (if response.attachments.isEmpty then none
           else some response.attachments) response.payload)
        hfind2 rfl rfl
      obtain ⟨⟨conv3, hfind3⟩, hn3⟩ :=
        appendMessage_preserves freshId now cid _ _ conv2 _ _ hn2 hfind2 happA
      have hset := setModelHistory_ok now _ cid conv3 agent.snapshot hfind3
      constructor
      · rw [runConversationTurn]
        simp only [hens, happU, hout, happA, persistFinally, hset]
        exact setModelHistory_persists now cid agent.snapshot _ conv3 _
          hn3 hfind3 hset
      · intro e he
        exact Except.noConfusion he
  | error e0 =>
      have happE := appendMessage_error_role freshId now
        (sortConversations (replaceFirstById cid
          { conv with
            messages := conv.messages ++
              [StoreMessage.mk freshId "user" messageText now none none],
            updatedAt := now } store)) cid
        ⟨none, some "error",
         some (if e0 == "" then "An error occurred processing your request"
               else e0), none, [], none⟩ conv2 hfind2 rfl
      have hset := setModelHistory_ok now _ cid conv2 agent.snapshot hfind2
      constructor
      · rw [runConversationTurn]
        simp only [hens, happU, hout, turnCatch, happE, persistFinally, hset]
        exact setModelHistory_persists now cid agent.snapshot _ conv2 _
          hn2 hfind2 hset
      · intro e he
        injection he with he1
        subst he1
        rw [runConversationTurn]
        simp only [hens, happU, hout, turnCatch, happE, persistFinally, hset]

/-- Witness for C9: a one-conversation store and an agent whose chat call
throws; the snapshot is persisted and the error propagates. -/
theorem C9_witness :
    (([convW].map (fun c => c.id)).Nodup ∧
      findConversation [convW] "c1" = some convW ∧ "c1" ≠ "") ∧
    (findConversation
        (runConversationTurn "u1" "t1" [convW] (some "c1") "hello" agentErrW).2
        "c1").map (fun c => c.modelHistory) = some agentErrW.snapshot ∧
    (runConversationTurn "u1" "t1" [convW] (some "c1") "hello" agentErrW).1 =
      Except.error "model exploded" :=
  ⟨⟨by decide, by decide, by decide⟩,
   (C9_snapshot_persisted "u1" "t1" [convW] "c1" "hello" agentErrW convW
      (by decide) (by decide) (by decide)).1,
   (C9_snapshot_persisted "u1" "t1" [convW] "c1" "hello" agentErrW convW
      (by decide) (by decide) (by decide)).2 "model exploded" rfl⟩

/-! ## Helper lemmas: history alignment -/

lemma fcParts_isEmpty_eq :
    ∀ parts : List Part, (fcParts parts).isEmpty = !hasFC parts := by
  intro parts
  induction parts with
  | nil => rfl
  | cons p rest ih =>
      cases p with
      | text s => simpa [fcParts, hasFC] using ih
      | functionCall n a => simp [fcParts, hasFC]
      | functionResponse n r => simpa [fcParts, hasFC] using ih

lemma aligned_append {l1 l2 : List HistMessage}
    (h1 : Aligned l1) (h2 : Aligned l2) : Aligned (l1 ++ l2) := by
  induction h1 with
  | nil => exact h2
  | plain m rest hm hf _ ih => exact Aligned.plain m _ hm hf ih
  | pair m fm rest hm hf hn _ ih => exact Aligned.pair m fm _ hm hf hn ih

lemma isModelFC_model_text (t : String) :
    isModelFC (HistMessage.mk Role.model [Part.text t]) = false := by
  simp [isModelFC, fcParts]

lemma isModelFC_user (parts : List Part) :
    isModelFC (HistMessage.mk Role.user parts) = false := by
  simp [isModelFC]

lemma isFunctionRole_model (parts : List Part) :
    isFunctionRole (HistMessage.mk Role.model parts) = false := rfl

lemma isFunctionRole_user (parts : List Part) :
    isFunctionRole (HistMessage.mk Role.user parts) = false := rfl

lemma toolLoop_delta_aligned (env : BigQueryEnv) :
    ∀ script resp out, toolLoop env resp script = some out →
      Aligned out.delta := by
  intro script
  induction script with
  | nil =>
      intro resp out h
      cases hfc : hasFC resp with
      | true => rw [toolLoop] at h; simp [hfc] at h
      | false =>
          rw [toolLoop_noFC env resp [] hfc] at h
          cases h
          exact Aligned.plain _ _ (isModelFC_model_text _)
            (isFunctionRole_model _) Aligned.nil
  | cons next rest ih =>
      intro resp out h
      cases hfc : hasFC resp with
      | false =>
          rw [toolLoop_noFC env resp (next :: rest) hfc] at h
          cases h
          exact Aligned.plain _ _ (isModelFC_model_text _)
            (isFunctionRole_model _) Aligned.nil
      | true =>
          rw [toolLoop_FC env resp next rest hfc] at h
          cases htl : toolLoop env next rest with
          | none => rw [htl] at h; simp at h
          | some out2 =>
              rw [htl] at h
              injection h with h1
              subst h1
              refine Aligned.pair _ _ _ ?_ rfl ?_ (ih next out2 htl)
              · simp [isModelFC, fcParts_isEmpty_eq, hfc]
              · rw [processCalls_snd_frNames]
                rfl

lemma attemptRun_delta_aligned (env : BigQueryEnv) (script : ModelScript)
    (out : LoopOut) (h : attemptRun env script = some out) :
    Aligned out.delta := by
  cases script with
  | nil => simp [attemptRun] at h
  | cons resp rest => exact toolLoop_delta_aligned env rest resp out h

lemma formatLoop_delta_aligned (env : BigQueryEnv)
    (schemaConfig : Option Schema) :
    ∀ remaining script res,
      formatLoop env schemaConfig remaining script = some res →
      Aligned res.historyDelta := by
  intro remaining
  induction remaining with
  | zero =>
      intro script res h
      rw [formatLoop] at h
      cases ha : attemptRun env script with
      | none => rw [ha] at h; simp at h
      | some out =>
          rw [ha] at h
          cases schemaConfig with
          | none =>
              injection h with h1
              subst h1
              exact attemptRun_delta_aligned env script out ha
          | some schema =>
              simp only at h
              by_cases hv :
                  (validateResponseAgainstTemplate out.finalText (some schema)).valid
              · rw [if_pos hv] at h
                injection h with h1
                subst h1
                exact attemptRun_delta_aligned env script out ha
              · rw [if_neg hv] at h
                injection h with h1
                subst h1
                exact attemptRun_delta_aligned env script out ha
  | succ r ih =>
      intro script res h
      rw [formatLoop] at h
      cases ha : attemptRun env script with
      | none => rw [ha] at h; simp at h
      | some out =>
          rw [ha] at h
          cases schemaConfig with
          | none =>
              injection h with h1
              subst h1
              exact attemptRun_delta_aligned env script out ha
          | some schema =>
              simp only at h
              by_cases hv :
                  (validateResponseAgainstTemplate out.finalText (some schema)).valid
              · rw [if_pos hv] at h
                injection h with h1
                subst h1
                exact attemptRun_delta_aligned env script out ha
              · rw [if_neg hv] at h
                cases hrec : formatLoop env (some schema) r out.remaining with
                | none => rw [hrec] at h; simp at h
                | some res2 =>
                    rw [hrec] at h
                    injection h with h1
                    subst h1
                    refine aligned_append (attemptRun_delta_aligned env script out ha) ?_
                    exact Aligned.plain _ _ (isModelFC_user _)
                      (isFunctionRole_user _) (ih out.remaining res2 hrec)

lemma chat_delta_aligned (env : BigQueryEnv) (schemaConfig : Option Schema)
    (msg : String) (script : ModelScript) (res : ChatResult)
    (h : chat env schemaConfig msg script = some res) :
    Aligned res.historyDelta := by
  rw [chat] at h
  cases hf : formatLoop env schemaConfig MAX_FORMAT_RETRIES script with
  | none => rw [hf] at h; simp at h
  | some r0 =>
      rw [hf] at h
      injection h with h1
      subst h1
      exact Aligned.plain _ _ (isModelFC_user _) (isFunctionRole_user _)
        (formatLoop_delta_aligned env schemaConfig MAX_FORMAT_RETRIES script r0 hf)

lemma isModelFC_role {m : HistMessage} (h : isModelFC m = true) :
    m.role = Role.model := by
  simp [isModelFC] at h
  exact h.1

lemma aligned_indexed {l : List HistMessage} (ha : Aligned l) :
    (∀ i, (hi : i < l.length) → isModelFC l[i] = true →
        ∃ hi2 : i + 1 < l.length, l[i+1].role = Role.function ∧
          frNames l[i+1].parts = some (fcNamesOf l[i])) ∧
    (∀ i, (hi : i < l.length) → isFunctionRole l[i] = true →
        ∃ j, i = j + 1 ∧ ∃ hj : j < l.length, isModelFC l[j] = true) ∧
    l.countP (fun m => isModelFC m) = l.countP (fun m => isFunctionRole m) := by
  induction ha with
  | nil =>
      refine ⟨?_, ?_, rfl⟩ <;> intro i hi <;> simp at hi
  | plain m rest hm hf hrest ih =>
      obtain ⟨ih1, ih2, ih3⟩ := ih
      refine ⟨?_, ?_, ?_⟩
      · intro i hi hfc
        cases i with
        | zero =>
            rw [List.getElem_cons_zero, hm] at hfc
            cases hfc
        | succ j =>
            have hj : j < rest.length := by simpa using hi
            rw [List.getElem_cons_succ] at hfc
            obtain ⟨h2, hrole, hnames⟩ := ih1 j hj hfc
            refine ⟨by simpa using Nat.succ_lt_succ h2, ?_, ?_⟩
            · simpa using hrole
            · simpa using hnames
      · intro i hi hfr
        cases i with
        | zero =>
            rw [List.getElem_cons_zero, hf] at hfr
            cases hfr
        | succ j =>
            have hj : j < rest.length := by simpa using hi
            rw [List.getElem_cons_succ] at hfr
            obtain ⟨k, hk, hk2, hkfc⟩ := ih2 j hj hfr
            refine ⟨k + 1, by omega, by simpa using Nat.succ_lt_succ hk2, ?_⟩
            simpa using hkfc
      · simp [List.countP_cons, hm, hf, ih3]
  | pair m fm rest hm hfm hnames hrest ih =>
      obtain ⟨ih1, ih2, ih3⟩ := ih
      have hfm_notfc : isModelFC fm = false := by
        simp [isModelFC, hfm]
      have hm_role : m.role = Role.model := isModelFC_role hm
      have hm_notfr : isFunctionRole m = false := by
        simp [isFunctionRole, hm_role]
      have hfm_fr : isFunctionRole fm = true := by
        simp [isFunctionRole, hfm]
      refine ⟨?_, ?_, ?_⟩
      · intro i hi hfc
        match i with
        | 0 =>
            refine ⟨by simp, ?_, ?_⟩
            · simpa using hfm
            · simpa using hnames
        | 1 =>
            rw [show ((m :: fm :: rest)[1] = fm) from rfl, hfm_notfc] at hfc
            cases hfc
        | j + 2 =>
            have hj : j < rest.length := by simpa using hi
            rw [show ((m :: fm :: rest)[j+2] = rest[j]) from rfl] at hfc
            obtain ⟨h2, hrole, hnames2⟩ := ih1 j hj hfc
            refine ⟨by simpa using Nat.succ_lt_succ (Nat.succ_lt_succ h2), ?_, ?_⟩
            · simpa using hrole
            · simpa using hnames2
      · intro i hi hfr
        match i with
        | 0 =>
            rw [List.getElem_cons_zero, hm_notfr] at hfr
            cases hfr
        | 1 =>
            exact ⟨0, rfl, by simp, by simpa using hm⟩
        | j + 2 =>
            have hj : j < rest.length := by simpa using hi
            rw [show ((m :: fm :: rest)[j+2] = rest[j]) from rfl] at hfr
            obtain ⟨k, hk, hk2, hkfc⟩ := ih2 j hj hfr
            refine ⟨k + 2, by omega,
              by simpa using Nat.succ_lt_succ (Nat.succ_lt_succ hk2), ?_⟩
            simpa using hkfc
      · simp [List.countP_cons, hm, hfm_notfc, hm_notfr, hfm_fr, ih3]

/-! ## C1: Model messages with function calls pair with Function messages -/

/-- C1: for every completed turn, in the history delta appended by `chat`,
every Model-role message containing at least one FunctionCall part is
immediately followed (before any later message) by a Function-role message
whose parts are all FunctionResponses whose names match, 1:1 and in order,
the FunctionCall names of that Model message; conversely every Function-role
message immediately follows such a Model message; hence the counts of the two
kinds of message are equal. -/
theorem C1_history_alignment (env : BigQueryEnv) (schemaConfig : Option Schema)
    (msg : String) (script : ModelScript) (res : ChatResult)
    (h : chat env schemaConfig msg script = some res) :
    (∀ i, (hi : i < res.historyDelta.length) →
        isModelFC res.historyDelta[i] = true →
        ∃ hi2 : i + 1 < res.historyDelta.length,
          res.historyDelta[i+1].role = Role.function ∧
          frNames res.historyDelta[i+1].parts =
            some (fcNamesOf res.historyDelta[i])) ∧
    (∀ i, (hi : i < res.historyDelta.length) →
        isFunctionRole res.historyDelta[i] = true →
        ∃ j, i = j + 1 ∧ ∃ hj : j < res.historyDelta.length,
          isModelFC res.historyDelta[j] = true) ∧
    res.historyDelta.countP (fun m => isModelFC m) =
      res.historyDelta.countP (fun m => isFunctionRole m) :=
  aligned_indexed (chat_delta_aligned env schemaConfig msg script res h)

/-- Witness for C1: the end-to-end scenario - one tool round followed by a
final text - whose delta has its Model-with-FunctionCall message immediately
followed by the name-aligned Function message. -/
theorem C1_witness :
    chat envOkExample none "List my tables"
      [[Part.functionCall "list_tables" (Val.str "d")],
       [Part.text "two tables"]] = some resAlignW ∧
    ((∀ i, (hi : i < resAlignW.historyDelta.length) →
        isModelFC resAlignW.historyDelta[i] = true →
        ∃ hi2 : i + 1 < resAlignW.historyDelta.length,
          resAlignW.historyDelta[i+1].role = Role.function ∧
          frNames resAlignW.historyDelta[i+1].parts =
            some (fcNamesOf resAlignW.historyDelta[i])) ∧
    (∀ i, (hi : i < resAlignW.historyDelta.length) →
        isFunctionRole resAlignW.historyDelta[i] = true →
        ∃ j, i = j + 1 ∧ ∃ hj : j < resAlignW.historyDelta.length,
          isModelFC resAlignW.historyDelta[j] = true) ∧
    resAlignW.historyDelta.countP (fun m => isModelFC m) =
      resAlignW.historyDelta.countP (fun m => isFunctionRole m)) :=
  ⟨rfl,
   C1_history_alignment envOkExample none "List my tables"
     [[Part.functionCall "list_tables" (Val.str "d")],
      [Part.text "two tables"]] resAlignW rfl⟩

end Ftf
